import Mathlib

/-!
Shallow embedding of the DataTransferKit rendezvous decomposition
(`DTK_Rendezvous_def.hpp`, `Rendezvous<Mesh>`), together with theorems about
its behaviour.

Modelling conventions:
* `GlobalOrdinal` is embedded as `Int`; coordinates (`double` in the source)
  are embedded as `Int` as well — every property proved here concerns the
  dataflow of ordinals and ranks, never floating-point arithmetic, and the
  RCB routing function and the bounding-box membership predicate are kept
  abstract (they live in `DTK_RCB` / `DTK_BoundingBox`, outside this
  translation unit), so the numeric carrier type is irrelevant.
* A mesh (the MeshTraits view) is a record of the iterator ranges the source
  reads: node ordinals, blocked coordinates, element ordinals, blocked
  connectivity, plus `nodeDim` and `nodesPerElement`.  `num_nodes` and
  `num_elements` are `std::distance` of the ranges, i.e. list lengths.
* `std::map<GlobalOrdinal, ordinal>` built by `m[key] = index` over the node
  (element) range is embedded as `indexMapFrom`: later assignments overwrite
  earlier ones, `find` is function application.
* `std::set` is embedded as a strictly sorted duplicate-free list with
  `insertSorted` as `insert`; iteration over the set is iteration over the
  sorted list, mirroring the ordered iteration of `std::set`.
* The `Tpetra::Distributor` round (`createFromSends` / `doPostsAndWaits`) is
  embedded by `importsOn`: rank `r` receives exactly the items whose
  destination is `r`, gathered over all participating ranks' meshes.
* Out-of-range `operator[]` accesses, which the source never performs on the
  inputs considered here, are totalized with `List.getD`; the division by
  `d_node_dim` in the query methods, undefined in C++ when `d_node_dim = 0`
  (the constructor's initial value), is totalized with an `Option` guard.
-/

namespace DTKRendezvous

/-- MeshTraits view of a mesh block: the data `Rendezvous<Mesh>` reads.
`coords` is dimension-major blocked (`coords[d*num_nodes + n]`), and
`connectivity` is node-slot-major blocked (`connectivity[i*num_elements + n]`). -/
structure Mesh where
  nodeDim : Nat
  nodesPerElement : Nat
  nodes : List Int
  coords : List Int
  elements : List Int
  connectivity : List Int

/-- The `double point[3]` buffer filled from a blocked array: axis `d` of
point `n` is `arr[d*num + n]` for `d < dim`, and axes from `dim` up to 3 are
zero-padded (`point[d] = 0.0`). -/
def blockedPoint (dim num : Nat) (arr : List Int) (n : Nat) : Int × Int × Int :=
  (if 0 < dim then arr.getD (0 * num + n) 0 else 0,
   if 1 < dim then arr.getD (1 * num + n) 0 else 0,
   if 2 < dim then arr.getD (2 * num + n) 0 else 0)

/-- The `std::map<GlobalOrdinal, ordinal_type>` built by iterating a range and
assigning `map[*it] = m++` starting at `m`: lookup checks later entries first
because `operator[]` assignment overwrites. -/
def indexMapFrom (l : List Int) (m : Nat) : Int → Option Nat :=
  match l with
  | [] => fun _ => none
  | g :: rest => fun x =>
      match indexMapFrom rest (m + 1) x with
      | some j => some j
      | none => if x = g then some m else none

/-- Lookup `map.find(g)->second` for the index map over `l`; the source never calls
it on an absent key (that would be C++ UB), so the default 0 is irrelevant
under the well-formedness hypotheses used below. -/
def ordIndex (l : List Int) (g : Int) : Nat :=
  (indexMapFrom l 0 g).getD 0

/-- Lookup `node_indices.find(node_ordinal)->second`. -/
def nodeIdx (mesh : Mesh) (g : Int) : Nat := ordIndex mesh.nodes g

/-- Lookup `element_indices.find(element_ordinal)->second`. -/
def elemIdx (mesh : Mesh) (g : Int) : Nat := ordIndex mesh.elements g

/-- Insertion into a `std::set` of `Int`: keep the list strictly sorted, drop duplicates. -/
def insertSorted (x : Int) : List Int → List Int
  | [] => [x]
  | y :: ys => if x < y then x :: y :: ys
               else if x = y then y :: ys
               else y :: insertSorted x ys

/-- Well-formedness of a mesh block, as the source assumes it: node and
element global ordinals are unique, the connectivity array has the blocked
size `nodes_per_element * num_elements`, and every connectivity entry refers
to a node of the block. -/
def WFMesh (mesh : Mesh) : Prop :=
  mesh.nodes.Nodup ∧ mesh.elements.Nodup ∧
  mesh.connectivity.length = mesh.nodesPerElement * mesh.elements.length ∧
  ∀ x ∈ mesh.connectivity, x ∈ mesh.nodes

/-! ### getMeshInBox -/

/-- First loop of `getMeshInBox`: `nodes_in_box[n] = box.pointInBox(coords)`
on the zero-padded point of node `n`.  The geometric predicate `inBox`
(`BoundingBox::pointInBox`) is an abstract parameter. -/
def nodesInBoxGeom (mesh : Mesh) (inBox : Int × Int × Int → Bool) : List Bool :=
  (List.range mesh.nodes.length).map
    (fun n => inBox (blockedPoint mesh.nodeDim mesh.nodes.length mesh.coords n))

/-- Second loop of `getMeshInBox`: element `n` is flagged iff some slot of its
connectivity points at a node whose `nodes_in_box` flag is set. -/
def elementsInBox (mesh : Mesh) (inBox : Int × Int × Int → Bool) : List Bool :=
  (List.range mesh.elements.length).map
    (fun n => (List.range mesh.nodesPerElement).any
      (fun i => (nodesInBoxGeom mesh inBox).getD
        (nodeIdx mesh (mesh.connectivity.getD (i * mesh.elements.length + n) 0)) false))

/-- The sequence of `nodes_in_box[node_index] = 1` assignments performed by
the third loop of `getMeshInBox` (union expansion), flattened in program
order. -/
def unionExpandTargets (mesh : Mesh) (eib : List Bool) : List Nat :=
  (List.range mesh.elements.length).flatMap
    (fun n => if eib.getD n false then
        (List.range mesh.nodesPerElement).map
          (fun i => nodeIdx mesh (mesh.connectivity.getD (i * mesh.elements.length + n) 0))
      else [])

/-- Execute a sequence of `flags[j] = 1` assignments. -/
def setTrueAt (flags : List Bool) (targets : List Nat) : List Bool :=
  targets.foldl (fun fl j => fl.set j true) flags

/-- Embedding of `Rendezvous<Mesh>::getMeshInBox`: returns the final (union-expanded)
`nodes_in_box` flags and the `elements_in_box` flags. -/
def getMeshInBox (mesh : Mesh) (inBox : Int × Int × Int → Bool) :
    List Bool × List Bool :=
  let eib := elementsInBox mesh inBox
  (setTrueAt (nodesInBoxGeom mesh inBox) (unionExpandTargets mesh eib), eib)

/-! ### setupImportCommunication -/

/-- The zero-padded RCB query point of local node slot `j`
(`node_coords[d] = mesh_coords[d*num_nodes + node_index]`, padded to 3). -/
def rcbPointOfNode (mesh : Mesh) (j : Nat) : Int × Int × Int :=
  blockedPoint mesh.nodeDim mesh.nodes.length mesh.coords j

/-- Phase 2 of `setupImportCommunication`: `export_element_procs_set[n]`, the
`std::set<int>` of RCB destination procs of element `n`'s nodes, empty unless
`elements_in_box[n]`.  The routing function `rcb`
(`RCB::getDestinationProc`) is an abstract parameter. -/
def exportElementProcsAt (mesh : Mesh) (eib : List Bool)
    (rcb : Int × Int × Int → Int) (n : Nat) : List Int :=
  if eib.getD n false then
    (List.range mesh.nodesPerElement).foldl
      (fun s i => insertSorted
        (rcb (rcbPointOfNode mesh
          (nodeIdx mesh (mesh.connectivity.getD (i * mesh.elements.length + n) 0)))) s)
      []
  else []

/-- The unrolled `(export_elements, export_element_procs)` pair list: for each
element slot `n` in order, one `(element ordinal, destination proc)` pair per
member of its proc set. -/
def exportElementPairs (mesh : Mesh) (eib : List Bool)
    (rcb : Int × Int × Int → Int) : List (Int × Int) :=
  (List.range mesh.elements.length).flatMap
    (fun n => (exportElementProcsAt mesh eib rcb n).map
      (fun p => (mesh.elements.getD n 0, p)))

/-- Phase 4 of `setupImportCommunication`, flattened in program order: for
each exported `(element, proc)` pair and each connectivity slot of that
element (located through `element_indices`), one insertion
`export_node_procs_set[node_index].insert(proc)`. -/
def nodeProcInserts (mesh : Mesh) (eib : List Bool)
    (rcb : Int × Int × Int → Int) : List (Nat × Int) :=
  (exportElementPairs mesh eib rcb).flatMap
    (fun gp => (List.range mesh.nodesPerElement).map
      (fun i => (nodeIdx mesh
        (mesh.connectivity.getD (i * mesh.elements.length + elemIdx mesh gp.1) 0),
        gp.2)))

/-- The `export_node_procs_set` vector of `num_nodes` proc sets after all
phase-4 insertions. -/
def exportNodeProcsSet (mesh : Mesh) (eib : List Bool)
    (rcb : Int × Int × Int → Int) : List (List Int) :=
  (nodeProcInserts mesh eib rcb).foldl
    (fun s jp => s.set jp.1 (insertSorted jp.2 (s.getD jp.1 [])))
    (List.replicate mesh.nodes.length [])

/-- The unrolled `(export_nodes, export_node_procs)` pair list of phase 5. -/
def exportNodePairs (mesh : Mesh) (eib : List Bool)
    (rcb : Int × Int × Int → Int) : List (Int × Int) :=
  (List.range mesh.nodes.length).flatMap
    (fun j => ((exportNodeProcsSet mesh eib rcb).getD j []).map
      (fun p => (mesh.nodes.getD j 0, p)))

/-- The `std::set<GlobalOrdinal>` pass over the ordinals a rank imports from
the distributor, copied out into the rendezvous array
(`rendezvous_elements_set` / `rendezvous_nodes_set`, then `std::copy`). -/
def rendezvousListOfImports (imports : List Int) : List Int :=
  imports.foldl (fun s g => insertSorted g s) []

/-- Semantics of the `Tpetra::Distributor` round (`createFromSends` + `doPostsAndWaits`):
rank `r` imports exactly the items whose destination proc is `r`, over all
participating ranks' export pair lists. -/
def importsOn (pairsOf : Mesh → List (Int × Int)) (meshes : List Mesh)
    (r : Int) : List Int :=
  meshes.flatMap (fun m => ((pairsOf m).filter (fun pr => pr.2 == r)).map Prod.fst)

/-- The `rendezvous_elements` array materialized on rank `r`. -/
def rendezvousElementsOn (meshes : List Mesh) (inBox : Int × Int × Int → Bool)
    (rcb : Int × Int × Int → Int) (r : Int) : List Int :=
  rendezvousListOfImports
    (importsOn (fun m => exportElementPairs m (getMeshInBox m inBox).2 rcb) meshes r)

/-- The `rendezvous_nodes` array materialized on rank `r`. -/
def rendezvousNodesOn (meshes : List Mesh) (inBox : Int × Int × Int → Bool)
    (rcb : Int × Int × Int → Int) (r : Int) : List Int :=
  rendezvousListOfImports
    (importsOn (fun m => exportNodePairs m (getMeshInBox m inBox).2 rcb) meshes r)

/-! ### The facade and its queries -/

/-- Post-construction state of the `Rendezvous` facade: `d_node_dim` plus the
two immutable lookup structures built by `build` (kept abstract as the
functions the queries invoke on them). -/
structure RendezvousState where
  nodeDim : Nat
  rcb : Int × Int × Int → Int
  kdtree : List Int → Int

/-- The `Rendezvous` constructor: `d_node_dim( 0 )`; the RCB tree and kD-tree
are not yet built (their lookup functions are whatever garbage the
uninitialized handles would expose — the queries must not reach them). -/
def rendezvousConstructor (rcb : Int × Int × Int → Int)
    (kdtree : List Int → Int) : RendezvousState :=
  ⟨0, rcb, kdtree⟩

/-- Embedding of `Rendezvous<Mesh>::build`, as far as the facade state is concerned:
`d_node_dim = MT::nodeDim(mesh)` and the two lookup structures installed. -/
def buildState (mesh : Mesh) (rcb : Int × Int × Int → Int)
    (kdtree : List Int → Int) : RendezvousState :=
  ⟨mesh.nodeDim, rcb, kdtree⟩

/-- Embedding of `Rendezvous<Mesh>::getRendezvousProcs`: `num_points = coords.size() /
d_node_dim` (guarded: division by `d_node_dim = 0` is undefined in the
source, embedded as `none`), then for each point the zero-padded blocked
point is routed through `d_rcb->getDestinationProc`. -/
def getRendezvousProcs (dim : Nat) (rcb : Int × Int × Int → Int)
    (coords : List Int) : Option (List Int) :=
  if dim = 0 then none
  else some ((List.range (coords.length / dim)).map
    (fun n => rcb (blockedPoint dim (coords.length / dim) coords n)))

/-- The `Teuchos::Array<double> point(d_node_dim)` buffer of `getElements`:
axis `d` of query point `n` is `coords[d*num_points + n]`, no padding. -/
def queryPoint (dim num : Nat) (arr : List Int) (n : Nat) : List Int :=
  (List.range dim).map (fun d => arr.getD (d * num + n) 0)

/-- Embedding of `Rendezvous<Mesh>::getElements`: same blocked decoding (same division
guard), each point handed to `d_kdtree->findPoint`. -/
def getElements (dim : Nat) (kdtree : List Int → Int)
    (coords : List Int) : Option (List Int) :=
  if dim = 0 then none
  else some ((List.range (coords.length / dim)).map
    (fun n => kdtree (queryPoint dim (coords.length / dim) coords n)))

/-- Stateful wrapper of `getRendezvousProcs`: a `const` method — it returns a
result and leaves the facade state untouched. -/
def getRendezvousProcsSt (st : RendezvousState) (coords : List Int) :
    Option (List Int) × RendezvousState :=
  (getRendezvousProcs st.nodeDim st.rcb coords, st)

/-- Stateful wrapper of `getElements`: a `const` method. -/
def getElementsSt (st : RendezvousState) (coords : List Int) :
    Option (List Int) × RendezvousState :=
  (getElements st.nodeDim st.kdtree coords, st)

/-- Modelled from the spec: `KDTree::findPoint` (`DTK_KDTree` is not under
src/): "returns the GlobalOrdinal of an element containing `p`, or a reserved
sentinel value if none; tie-break: the element with the smallest
GlobalOrdinal".  The rendezvous elements are carried as `(ordinal,
containment predicate)` pairs. -/
def findPoint (elems : List (Int × (List Int → Bool))) (sentinel : Int)
    (p : List Int) : Int :=
  (((elems.filter (fun e => e.2 p)).map Prod.fst).min?).getD sentinel

/-! ### Concrete inputs used by the witnesses -/

/-- A small well-formed two-element mesh block in two dimensions:
3 nodes 10, 11, 12 at x-coordinates 0, 1, 2 (y-coordinates 5, 6, 7,
dimension-major blocked), 2 two-node elements 100 = (10,11) and
101 = (11,12) (slot-major blocked connectivity). -/
def wMesh : Mesh := ⟨2, 2, [10, 11, 12], [0, 1, 2, 5, 6, 7], [100, 101], [10, 11, 11, 12]⟩

/-- A concrete box predicate: x-coordinate at most 1. -/
def wInBox : Int × Int × Int → Bool := fun p => decide (p.1 ≤ 1)

/-- A concrete routing function: the destination rank is the x-coordinate. -/
def wRcb : Int × Int × Int → Int := fun p => p.1

/-- A concrete kD-tree lookup: the first coordinate, or -1. -/
def wKdt : List Int → Int := fun p => p.getD 0 (-1)

/-! ### Helper lemmas -/

theorem wMesh_wf : WFMesh wMesh :=
  ⟨by decide, by decide, by decide, by decide⟩

theorem mem_insertSorted (a x : Int) (l : List Int) :
    a ∈ insertSorted x l ↔ a = x ∨ a ∈ l := by
  induction l with
  | nil => simp [insertSorted]
  | cons y ys ih =>
    unfold insertSorted
    by_cases hlt : x < y
    · rw [if_pos hlt]
      simp only [List.mem_cons]
    · rw [if_neg hlt]
      by_cases heq : x = y
      · rw [if_pos heq]
        simp only [List.mem_cons]
        constructor
        · tauto
        · rintro (h | h)
          · rw [h, heq]; exact Or.inl rfl
          · exact h
      · rw [if_neg heq]
        simp only [List.mem_cons, ih]
        tauto

theorem sorted_insertSorted (x : Int) (l : List Int)
    (h : l.Sorted (· < ·)) : (insertSorted x l).Sorted (· < ·) := by
  induction l with
  | nil => simp [insertSorted]
  | cons y ys ih =>
    rw [List.sorted_cons] at h
    obtain ⟨hy, hys⟩ := h
    by_cases hlt : x < y
    · simp only [insertSorted, if_pos hlt]
      rw [List.sorted_cons]
      refine ⟨?_, ?_⟩
      · intro b hb
        rcases List.mem_cons.mp hb with hb | hb
        · subst hb; exact hlt
        · exact lt_trans hlt (hy b hb)
      · rw [List.sorted_cons]; exact ⟨hy, hys⟩
    · by_cases heq : x = y
      · unfold insertSorted
        rw [if_neg hlt, if_pos heq]
        rw [List.sorted_cons]; exact ⟨hy, hys⟩
      · unfold insertSorted
        rw [if_neg hlt, if_neg heq]
        rw [List.sorted_cons]
        refine ⟨?_, ih hys⟩
        intro b hb
        rcases (mem_insertSorted b x ys).mp hb with hb | hb
        · rw [hb]
          rcases lt_trichotomy x y with h1 | h1 | h1
          · exact absurd h1 hlt
          · exact absurd h1 heq
          · exact h1
        · exact hy b hb

theorem mem_foldl_insertSorted {α : Type} (f : α → Int) (xs : List α)
    (init : List Int) (p : Int) :
    p ∈ xs.foldl (fun s x => insertSorted (f x) s) init ↔
      (∃ x ∈ xs, f x = p) ∨ p ∈ init := by
  induction xs generalizing init with
  | nil => simp
  | cons x rest ih =>
    simp only [List.foldl_cons, ih, mem_insertSorted, List.mem_cons]
    constructor
    · rintro (⟨a, ha, hfa⟩ | hp | hp)
      · exact Or.inl ⟨a, Or.inr ha, hfa⟩
      · exact Or.inl ⟨x, Or.inl rfl, hp.symm⟩
      · exact Or.inr hp
    · rintro (⟨a, ha | ha, hfa⟩ | hp)
      · subst ha; exact Or.inr (Or.inl hfa.symm)
      · exact Or.inl ⟨a, ha, hfa⟩
      · exact Or.inr (Or.inr hp)

theorem sorted_foldl_insertSorted {α : Type} (f : α → Int) (xs : List α)
    (init : List Int) (h : init.Sorted (· < ·)) :
    (xs.foldl (fun s x => insertSorted (f x) s) init).Sorted (· < ·) := by
  induction xs generalizing init with
  | nil => exact h
  | cons x rest ih => exact ih _ (sorted_insertSorted _ _ h)

theorem indexMapFrom_eq_some (l : List Int) (m : Nat) (x : Int) (j : Nat)
    (h : indexMapFrom l m x = some j) :
    ∃ i, i < l.length ∧ j = m + i ∧ l[i]? = some x := by
  induction l generalizing m with
  | nil => simp [indexMapFrom] at h
  | cons g rest ih =>
    simp only [indexMapFrom] at h
    cases hrest : indexMapFrom rest (m + 1) x with
    | some j0 =>
      rw [hrest] at h
      obtain ⟨i, hi, hj, hget⟩ := ih (m + 1) (by injection h with h2; rw [← h2]; exact hrest)
      exact ⟨i + 1, by simpa using hi, by omega, by simpa using hget⟩
    | none =>
      rw [hrest] at h
      by_cases hx : x = g
      · rw [if_pos hx] at h
        injection h with h2
        exact ⟨0, by simp, by omega, by simp [hx]⟩
      · rw [if_neg hx] at h; exact absurd h (by simp)

theorem indexMapFrom_isSome_of_mem (l : List Int) (m : Nat) (x : Int)
    (h : x ∈ l) : (indexMapFrom l m x).isSome := by
  induction l generalizing m with
  | nil => simp at h
  | cons g rest ih =>
    simp only [indexMapFrom]
    cases hrest : indexMapFrom rest (m + 1) x with
    | some j0 => simp
    | none =>
      rcases List.mem_cons.mp h with hx | hx
      · simp [hx]
      · have := ih (m + 1) hx
        rw [hrest] at this
        simp at this

theorem indexMapFrom_of_nodup (l : List Int) (m : Nat) (x : Int) (i : Nat)
    (hnd : l.Nodup) (h : l[i]? = some x) :
    indexMapFrom l m x = some (m + i) := by
  induction l generalizing m i with
  | nil => simp at h
  | cons g rest ih =>
    rw [List.nodup_cons] at hnd
    obtain ⟨hg, hnd'⟩ := hnd
    cases i with
    | zero =>
      simp only [List.getElem?_cons_zero, Option.some.injEq] at h
      have hnone : indexMapFrom rest (m + 1) x = none := by
        cases hrest : indexMapFrom rest (m + 1) x with
        | none => rfl
        | some j0 =>
          obtain ⟨i0, _, _, hget⟩ := indexMapFrom_eq_some rest (m + 1) x j0 hrest
          have hx : x ∈ rest := List.getElem?_mem hget
          rw [← h] at hx
          exact absurd hx hg
      simp only [indexMapFrom, hnone]
      rw [if_pos h.symm]
      simp
    | succ i0 =>
      simp only [List.getElem?_cons_succ] at h
      have hr := ih (m + 1) i0 hnd' h
      simp only [indexMapFrom, hr]
      congr 1
      omega

theorem ordIndex_of_nodup (l : List Int) (x : Int) (i : Nat)
    (hnd : l.Nodup) (h : l[i]? = some x) : ordIndex l x = i := by
  unfold ordIndex
  rw [indexMapFrom_of_nodup l 0 x i hnd h]
  simp

theorem ordIndex_spec_of_mem (l : List Int) (x : Int) (h : x ∈ l) :
    ordIndex l x < l.length ∧ l[ordIndex l x]? = some x := by
  unfold ordIndex
  cases hm : indexMapFrom l 0 x with
  | none =>
    have := indexMapFrom_isSome_of_mem l 0 x h
    rw [hm] at this; simp at this
  | some j =>
    obtain ⟨i, hi, hj, hget⟩ := indexMapFrom_eq_some l 0 x j hm
    simp only [Option.getD_some]
    exact ⟨by omega, by rw [hj]; simpa using hget⟩

theorem getD_map_range {α : Type} (f : Nat → α) (k n : Nat) (d : α) :
    ((List.range k).map f).getD n d = if n < k then f n else d := by
  rw [List.getD_eq_getElem?_getD]
  by_cases h : n < k
  · rw [List.getElem?_map, List.getElem?_range h]
    simp [h]
  · rw [List.getElem?_eq_none (by simpa using Nat.le_of_not_lt h)]
    simp [h]

theorem getD_take_of_lt {α : Type} (l : List α) (i n : Nat) (d : α)
    (h : i < n) : (l.take n).getD i d = l.getD i d := by
  rw [List.getD_eq_getElem?_getD, List.getD_eq_getElem?_getD,
    List.getElem?_take_of_lt h]

theorem mem_getD_foldl_set (A : List (Nat × Int)) (sets : List (List Int))
    (j : Nat) (p : Int) (hj : j < sets.length) :
    (p ∈ (A.foldl (fun s jp => s.set jp.1 (insertSorted jp.2 (s.getD jp.1 []))) sets).getD j []
      ↔ (j, p) ∈ A ∨ p ∈ sets.getD j []) := by
  induction A generalizing sets with
  | nil => simp
  | cons kq A' ih =>
    obtain ⟨k, q⟩ := kq
    simp only [List.foldl_cons]
    rw [ih (sets.set k (insertSorted q (sets.getD k []))) (by simpa using hj)]
    by_cases hk : k = j
    · subst hk
      have hset : (sets.set k (insertSorted q (sets.getD k []))).getD k [] =
          insertSorted q (sets.getD k []) := by
        rw [List.getD_eq_getElem?_getD, List.getElem?_set_eq_of_lt _ hj]
        simp
      rw [hset, mem_insertSorted]
      simp only [List.mem_cons, Prod.mk.injEq]
      tauto
    · have hset : (sets.set k (insertSorted q (sets.getD k []))).getD j [] =
          sets.getD j [] := by
        rw [List.getD_eq_getElem?_getD, List.getElem?_set_ne hk,
          ← List.getD_eq_getElem?_getD]
      rw [hset]
      simp only [List.mem_cons, Prod.mk.injEq]
      constructor
      · rintro (h | h)
        · exact Or.inl (Or.inr h)
        · exact Or.inr h
      · rintro ((⟨h1, h2⟩ | h) | h)
        · exact absurd h1.symm hk
        · exact Or.inl h
        · exact Or.inr h

theorem length_setTrueAt (flags : List Bool) (targets : List Nat) :
    (setTrueAt flags targets).length = flags.length := by
  unfold setTrueAt
  induction targets generalizing flags with
  | nil => rfl
  | cons t ts ih => simpa using ih (flags.set t true)

theorem getD_setTrueAt (flags : List Bool) (targets : List Nat) (j : Nat) :
    (setTrueAt flags targets).getD j false = true ↔
      (j ∈ targets ∧ j < flags.length) ∨ flags.getD j false = true := by
  unfold setTrueAt
  induction targets generalizing flags with
  | nil => simp
  | cons t ts ih =>
    simp only [List.foldl_cons]
    rw [ih (flags.set t true)]
    by_cases ht : t = j
    · subst ht
      by_cases hlen : t < flags.length
      · have hset : (flags.set t true).getD t false = true := by
          rw [List.getD_eq_getElem?_getD, List.getElem?_set_eq_of_lt _ hlen]
          rfl
        simp only [List.length_set, hset, List.mem_cons]
        tauto
      · have hset : flags.set t true = flags := List.set_eq_of_length_le (by omega)
        simp only [hset, List.length_set, List.mem_cons]
        constructor
        · rintro (⟨_, h2⟩ | h)
          · exact Or.inr (by omega)
          · exact Or.inr h
        · rintro (⟨h1, h2⟩ | h)
          · exact absurd h2 (by omega)
          · exact Or.inr h
    · have hset : (flags.set t true).getD j false = flags.getD j false := by
        rw [List.getD_eq_getElem?_getD, List.getElem?_set_ne ht,
          ← List.getD_eq_getElem?_getD]
      simp only [hset, List.length_set, List.mem_cons]
      constructor
      · rintro (⟨h1, h2⟩ | h)
        · exact Or.inl ⟨Or.inr h1, h2⟩
        · exact Or.inr h
      · rintro (⟨h1 | h1, h2⟩ | h)
        · exact absurd h1.symm ht
        · exact Or.inl ⟨h1, h2⟩
        · exact Or.inr h

theorem mem_exportElementProcsAt (mesh : Mesh) (eib : List Bool)
    (rcb : Int × Int × Int → Int) (n : Nat) (p : Int) :
    p ∈ exportElementProcsAt mesh eib rcb n ↔
      eib.getD n false = true ∧ ∃ i < mesh.nodesPerElement,
        rcb (rcbPointOfNode mesh (nodeIdx mesh
          (mesh.connectivity.getD (i * mesh.elements.length + n) 0))) = p := by
  unfold exportElementProcsAt
  by_cases h : eib.getD n false
  · rw [if_pos h]
    rw [mem_foldl_insertSorted
      (fun i => rcb (rcbPointOfNode mesh (nodeIdx mesh
        (mesh.connectivity.getD (i * mesh.elements.length + n) 0))))]
    have h2 : eib[n]?.getD false = true := by
      rw [← List.getD_eq_getElem?_getD]; exact h
    simp [h2, List.mem_range]
  · rw [if_neg h]
    simp only [List.not_mem_nil, false_iff, not_and]
    intro hh
    exact absurd hh (by simpa using h)

theorem sorted_exportElementProcsAt (mesh : Mesh) (eib : List Bool)
    (rcb : Int × Int × Int → Int) (n : Nat) :
    (exportElementProcsAt mesh eib rcb n).Sorted (· < ·) := by
  unfold exportElementProcsAt
  by_cases h : eib.getD n false
  · rw [if_pos h]
    exact sorted_foldl_insertSorted _ _ [] (by simp)
  · rw [if_neg h]
    simp

theorem mem_exportElementPairs (mesh : Mesh) (eib : List Bool)
    (rcb : Int × Int × Int → Int) (g r : Int) :
    (g, r) ∈ exportElementPairs mesh eib rcb ↔
      ∃ n < mesh.elements.length, g = mesh.elements.getD n 0 ∧
        r ∈ exportElementProcsAt mesh eib rcb n := by
  unfold exportElementPairs
  rw [List.mem_flatMap]
  constructor
  · rintro ⟨n, hn, hmem⟩
    rw [List.mem_range] at hn
    obtain ⟨p, hp, heq⟩ := List.mem_map.mp hmem
    obtain ⟨h1, h2⟩ := Prod.mk.injEq .. ▸ heq
    exact ⟨n, hn, h1.symm, h2 ▸ hp⟩
  · rintro ⟨n, hn, hg, hr⟩
    refine ⟨n, List.mem_range.mpr hn, List.mem_map.mpr ⟨r, hr, ?_⟩⟩
    rw [hg]

theorem mem_nodeProcInserts (mesh : Mesh) (eib : List Bool)
    (rcb : Int × Int × Int → Int) (j : Nat) (p : Int) :
    (j, p) ∈ nodeProcInserts mesh eib rcb ↔
      ∃ gp ∈ exportElementPairs mesh eib rcb, ∃ i < mesh.nodesPerElement,
        j = nodeIdx mesh (mesh.connectivity.getD
          (i * mesh.elements.length + elemIdx mesh gp.1) 0) ∧ p = gp.2 := by
  unfold nodeProcInserts
  rw [List.mem_flatMap]
  constructor
  · rintro ⟨gp, hgp, hmem⟩
    obtain ⟨i, hi, heq⟩ := List.mem_map.mp hmem
    rw [List.mem_range] at hi
    obtain ⟨h1, h2⟩ := Prod.mk.injEq .. ▸ heq
    exact ⟨gp, hgp, i, hi, h1.symm, h2.symm⟩
  · rintro ⟨gp, hgp, i, hi, hj, hp⟩
    refine ⟨gp, hgp, List.mem_map.mpr ⟨i, List.mem_range.mpr hi, ?_⟩⟩
    rw [← hj, ← hp]

theorem mem_exportNodeProcsSet (mesh : Mesh) (eib : List Bool)
    (rcb : Int × Int × Int → Int) (j : Nat) (p : Int)
    (hj : j < mesh.nodes.length) :
    p ∈ (exportNodeProcsSet mesh eib rcb).getD j [] ↔
      (j, p) ∈ nodeProcInserts mesh eib rcb := by
  unfold exportNodeProcsSet
  rw [mem_getD_foldl_set _ _ _ _ (by simpa using hj)]
  have hrep : (List.replicate mesh.nodes.length ([] : List Int)).getD j [] = [] := by
    rw [List.getD_eq_getElem?_getD,
      List.getElem?_eq_getElem (by simpa using hj), List.getElem_replicate]
    rfl
  rw [hrep]
  simp

theorem mem_exportNodePairs (mesh : Mesh) (eib : List Bool)
    (rcb : Int × Int × Int → Int) (nd r : Int) :
    (nd, r) ∈ exportNodePairs mesh eib rcb ↔
      ∃ j < mesh.nodes.length, nd = mesh.nodes.getD j 0 ∧
        r ∈ (exportNodeProcsSet mesh eib rcb).getD j [] := by
  unfold exportNodePairs
  rw [List.mem_flatMap]
  constructor
  · rintro ⟨j, hj, hmem⟩
    rw [List.mem_range] at hj
    obtain ⟨p, hp, heq⟩ := List.mem_map.mp hmem
    obtain ⟨h1, h2⟩ := Prod.mk.injEq .. ▸ heq
    exact ⟨j, hj, h1.symm, h2 ▸ hp⟩
  · rintro ⟨j, hj, hnd, hr⟩
    refine ⟨j, List.mem_range.mpr hj, List.mem_map.mpr ⟨r, hr, ?_⟩⟩
    rw [hnd]

theorem mem_rendezvousListOfImports (imports : List Int) (g : Int) :
    g ∈ rendezvousListOfImports imports ↔ g ∈ imports := by
  unfold rendezvousListOfImports
  rw [mem_foldl_insertSorted (fun x => x)]
  simp

theorem sorted_rendezvousListOfImports (imports : List Int) :
    (rendezvousListOfImports imports).Sorted (· < ·) := by
  unfold rendezvousListOfImports
  exact sorted_foldl_insertSorted (fun x => x) imports [] (by simp)

theorem mem_importsOn (pairsOf : Mesh → List (Int × Int)) (meshes : List Mesh)
    (r : Int) (g : Int) :
    g ∈ importsOn pairsOf meshes r ↔
      ∃ m ∈ meshes, (g, r) ∈ pairsOf m := by
  unfold importsOn
  rw [List.mem_flatMap]
  constructor
  · rintro ⟨m, hm, hmem⟩
    obtain ⟨pr, hpr, heq⟩ := List.mem_map.mp hmem
    have h2 := (List.mem_filter.mp hpr).2
    have h1 := (List.mem_filter.mp hpr).1
    rw [beq_iff_eq] at h2
    refine ⟨m, hm, ?_⟩
    have : pr = (g, r) := by
      obtain ⟨a, b⟩ := pr
      simp only at heq h2
      rw [heq, h2]
    rw [← this]
    exact h1
  · rintro ⟨m, hm, hmem⟩
    refine ⟨m, hm, List.mem_map.mpr ⟨(g, r), List.mem_filter.mpr ⟨hmem, by simp⟩, rfl⟩⟩

theorem length_le_of_nodup_subset (l m : List Int) (hnd : l.Nodup)
    (hsub : ∀ x ∈ l, x ∈ m) : l.length ≤ m.length := by
  rw [← List.toFinset_card_of_nodup hnd]
  calc l.toFinset.card
      ≤ m.toFinset.card := Finset.card_le_card
        (fun x hx => List.mem_toFinset.mpr (hsub x (List.mem_toFinset.mp hx)))
    _ ≤ m.length := m.toFinset_card_le

theorem getRendezvousProcs_pos (dim : Nat) (hd : 0 < dim)
    (rcb : Int × Int × Int → Int) (coords : List Int) :
    getRendezvousProcs dim rcb coords =
      some ((List.range (coords.length / dim)).map
        (fun n => rcb (blockedPoint dim (coords.length / dim) coords n))) := by
  unfold getRendezvousProcs
  rw [if_neg (by omega)]

theorem getElements_pos (dim : Nat) (hd : 0 < dim)
    (kdt : List Int → Int) (coords : List Int) :
    getElements dim kdt coords =
      some ((List.range (coords.length / dim)).map
        (fun n => kdt (queryPoint dim (coords.length / dim) coords n))) := by
  unfold getElements
  rw [if_neg (by omega)]

theorem lt_mul_of_components (k dim q n : Nat) (hk : k < dim) (hn : n < q) :
    k * q + n < dim * q := by
  have h1 : k * q + n < (k + 1) * q := by rw [Nat.succ_mul]; omega
  have h2 : (k + 1) * q ≤ dim * q := Nat.mul_le_mul_right q hk
  omega

theorem blockedPoint_take (dim : Nat) (coords : List Int) (q n : Nat)
    (hn : n < q) :
    blockedPoint dim q (coords.take (dim * q)) n = blockedPoint dim q coords n := by
  have hcomp : ∀ k, (if k < dim then (coords.take (dim * q)).getD (k * q + n) 0 else 0)
      = (if k < dim then coords.getD (k * q + n) 0 else 0) := by
    intro k
    by_cases hk : k < dim
    · rw [if_pos hk, if_pos hk,
        getD_take_of_lt _ _ _ _ (lt_mul_of_components k dim q n hk hn)]
    · rw [if_neg hk, if_neg hk]
  unfold blockedPoint
  rw [hcomp 0, hcomp 1, hcomp 2]

theorem queryPoint_take (dim : Nat) (coords : List Int) (q n : Nat)
    (hn : n < q) :
    queryPoint dim q (coords.take (dim * q)) n = queryPoint dim q coords n := by
  unfold queryPoint
  refine List.map_congr_left ?_
  intro d hd
  rw [List.mem_range] at hd
  exact getD_take_of_lt _ _ _ _ (lt_mul_of_components d dim q n hd hn)

/-! ### The claims -/

/-- Claim C5: the `rendezvous_nodes` and `rendezvous_elements` arrays produced
by `setupImportCommunication` contain no duplicate GlobalOrdinals and are
materialized in strictly ascending GlobalOrdinal order, for every multiset of
imported ordinals received from the distributor (they pass through the
ordered `std::set` before being copied out). -/
theorem rendezvous_arrays_sorted_unique (meshes : List Mesh)
    (inBox : Int × Int × Int → Bool) (rcb : Int × Int × Int → Int) (r : Int) :
    (rendezvousElementsOn meshes inBox rcb r).Nodup ∧
    (rendezvousElementsOn meshes inBox rcb r).Sorted (· < ·) ∧
    (rendezvousNodesOn meshes inBox rcb r).Nodup ∧
    (rendezvousNodesOn meshes inBox rcb r).Sorted (· < ·) ∧
    ∀ imports : List Int, (rendezvousListOfImports imports).Nodup ∧
      (rendezvousListOfImports imports).Sorted (· < ·) ∧
      ∀ g, g ∈ rendezvousListOfImports imports ↔ g ∈ imports := by
  refine ⟨(sorted_rendezvousListOfImports _).nodup, sorted_rendezvousListOfImports _,
    (sorted_rendezvousListOfImports _).nodup, sorted_rendezvousListOfImports _,
    fun imports => ⟨(sorted_rendezvousListOfImports _).nodup,
      sorted_rendezvousListOfImports _, mem_rendezvousListOfImports imports⟩⟩

/-- Claim C6: on a dimension-major blocked array of `N` points in `dim`
dimensions (`coords.length = dim * N`, `1 ≤ dim ≤ 3`), `getRendezvousProcs`
returns exactly `N` ranks, the `n`-th being the RCB destination of the point
whose axis-`k` coordinate is `coords[k*N + n]`, axes from `dim` up to 3
zero-padded. -/
theorem getRendezvousProcs_blocked_layout (dim N : Nat)
    (rcb : Int × Int × Int → Int) (coords : List Int)
    (h1 : 1 ≤ dim) (h3 : dim ≤ 3) (hlen : coords.length = dim * N) :
    ∃ ranks, getRendezvousProcs dim rcb coords = some ranks ∧
      ranks.length = N ∧
      ∀ n, n < N → ranks.getD n 0 = rcb
        (if 0 < dim then coords.getD (0 * N + n) 0 else 0,
         if 1 < dim then coords.getD (1 * N + n) 0 else 0,
         if 2 < dim then coords.getD (2 * N + n) 0 else 0) := by
  have hq : coords.length / dim = N := by
    rw [hlen]; exact Nat.mul_div_cancel_left N (by omega)
  refine ⟨_, getRendezvousProcs_pos dim (by omega) rcb coords, ?_, ?_⟩
  · simp [hq]
  · intro n hn
    rw [hq, getD_map_range, if_pos hn]
    rfl

/-- Claim C6 witness: two 2-dimensional points. -/
theorem getRendezvousProcs_blocked_layout_witness :
    ∃ ranks, getRendezvousProcs 2 wRcb [1, 2, 3, 4] = some ranks ∧
      ranks.length = 2 ∧
      ∀ n, n < 2 → ranks.getD n 0 = wRcb
        (if 0 < 2 then ([1, 2, 3, 4] : List Int).getD (0 * 2 + n) 0 else 0,
         if 1 < 2 then ([1, 2, 3, 4] : List Int).getD (1 * 2 + n) 0 else 0,
         if 2 < 2 then ([1, 2, 3, 4] : List Int).getD (2 * 2 + n) 0 else 0) :=
  getRendezvousProcs_blocked_layout 2 2 wRcb [1, 2, 3, 4]
    (by decide) (by decide) (by decide)

/-- Claim C8: `getRendezvousProcs` and `getElements` are pure reads of the
immutable post-build facade state: they leave the state unchanged, and a
second call with the same input — after either query — returns the identical
result. -/
theorem queries_const_state (st : RendezvousState) (coords : List Int) :
    (getRendezvousProcsSt st coords).2 = st ∧
    (getElementsSt st coords).2 = st ∧
    (getRendezvousProcsSt ((getRendezvousProcsSt st coords).2) coords).1
      = (getRendezvousProcsSt st coords).1 ∧
    (getElementsSt ((getElementsSt st coords).2) coords).1
      = (getElementsSt st coords).1 ∧
    (getElementsSt ((getRendezvousProcsSt st coords).2) coords).1
      = (getElementsSt st coords).1 :=
  ⟨rfl, rfl, rfl, rfl, rfl⟩

/-- Claim C9: the constructor initializes `d_node_dim` to 0, and both queries
divide by `d_node_dim`; on the just-constructed state the embedding's guarded
division takes the error branch, while under the precondition that `build`
has set `d_node_dim` to a value in 1..3 both queries are well-defined. -/
theorem query_before_build_unsafe (rcb : Int × Int × Int → Int)
    (kdt : List Int → Int) (coords : List Int) (mesh : Mesh)
    (hdim : mesh.nodeDim = 1 ∨ mesh.nodeDim = 2 ∨ mesh.nodeDim = 3) :
    (getRendezvousProcsSt (rendezvousConstructor rcb kdt) coords).1 = none ∧
    (getElementsSt (rendezvousConstructor rcb kdt) coords).1 = none ∧
    (∃ l, (getRendezvousProcsSt (buildState mesh rcb kdt) coords).1 = some l) ∧
    (∃ l, (getElementsSt (buildState mesh rcb kdt) coords).1 = some l) := by
  have hne : mesh.nodeDim ≠ 0 := by rcases hdim with h | h | h <;> omega
  have hd : 0 < mesh.nodeDim := Nat.pos_of_ne_zero hne
  exact ⟨rfl, rfl,
    ⟨_, getRendezvousProcs_pos mesh.nodeDim hd rcb coords⟩,
    ⟨_, getElements_pos mesh.nodeDim hd kdt coords⟩⟩

/-- Claim C9 witness: concrete facade at node dimension 2. -/
theorem query_before_build_unsafe_witness :
    (getRendezvousProcsSt (rendezvousConstructor wRcb wKdt) [1, 2]).1 = none ∧
    (getElementsSt (rendezvousConstructor wRcb wKdt) [1, 2]).1 = none ∧
    (∃ l, (getRendezvousProcsSt (buildState wMesh wRcb wKdt) [1, 2]).1 = some l) ∧
    (∃ l, (getElementsSt (buildState wMesh wRcb wKdt) [1, 2]).1 = some l) :=
  query_before_build_unsafe wRcb wKdt [1, 2] wMesh (by decide)

/-- Claim C10: when `coords.length` is not a multiple of `dim`, both queries
silently process exactly `coords.length / dim` points — the output is `some`
of that floor length, and it is unchanged by dropping the trailing
`coords.length mod dim` values. -/
theorem query_truncated_tail_ignored (dim : Nat) (hd : 0 < dim)
    (rcb : Int × Int × Int → Int) (kdt : List Int → Int) (coords : List Int) :
    (∃ l, getRendezvousProcs dim rcb coords = some l ∧
      l.length = coords.length / dim) ∧
    (∃ l, getElements dim kdt coords = some l ∧
      l.length = coords.length / dim) ∧
    getRendezvousProcs dim rcb coords
      = getRendezvousProcs dim rcb (coords.take (dim * (coords.length / dim))) ∧
    getElements dim kdt coords
      = getElements dim kdt (coords.take (dim * (coords.length / dim))) := by
  have hle : dim * (coords.length / dim) ≤ coords.length := by
    calc dim * (coords.length / dim) = coords.length / dim * dim := Nat.mul_comm _ _
      _ ≤ coords.length := Nat.div_mul_le_self _ _
  have htl : (coords.take (dim * (coords.length / dim))).length
      = dim * (coords.length / dim) := by
    rw [List.length_take]; omega
  have hq2 : (coords.take (dim * (coords.length / dim))).length / dim
      = coords.length / dim := by
    rw [htl]; exact Nat.mul_div_cancel_left _ hd
  refine ⟨⟨_, getRendezvousProcs_pos dim hd rcb coords, by simp⟩,
    ⟨_, getElements_pos dim hd kdt coords, by simp⟩, ?_, ?_⟩
  · rw [getRendezvousProcs_pos dim hd, getRendezvousProcs_pos dim hd, hq2]
    refine congrArg some (List.map_congr_left ?_)
    intro n hn
    rw [List.mem_range] at hn
    rw [blockedPoint_take dim coords (coords.length / dim) n hn]
  · rw [getElements_pos dim hd, getElements_pos dim hd, hq2]
    refine congrArg some (List.map_congr_left ?_)
    intro n hn
    rw [List.mem_range] at hn
    rw [queryPoint_take dim coords (coords.length / dim) n hn]

/-- Claim C10 witness: 5 coordinates at dimension 2 — 2 points processed,
the trailing value ignored. -/
theorem query_truncated_tail_ignored_witness :
    (∃ l, getRendezvousProcs 2 wRcb [1, 2, 3, 4, 5] = some l ∧
      l.length = ([1, 2, 3, 4, 5] : List Int).length / 2) ∧
    (∃ l, getElements 2 wKdt [1, 2, 3, 4, 5] = some l ∧
      l.length = ([1, 2, 3, 4, 5] : List Int).length / 2) ∧
    getRendezvousProcs 2 wRcb [1, 2, 3, 4, 5]
      = getRendezvousProcs 2 wRcb
        (([1, 2, 3, 4, 5] : List Int).take (2 * (([1, 2, 3, 4, 5] : List Int).length / 2))) ∧
    getElements 2 wKdt [1, 2, 3, 4, 5]
      = getElements 2 wKdt
        (([1, 2, 3, 4, 5] : List Int).take (2 * (([1, 2, 3, 4, 5] : List Int).length / 2))) :=
  query_truncated_tail_ignored 2 (by decide) wRcb wKdt [1, 2, 3, 4, 5]

/-- Claim C7: on a blocked array of `N` points, `getElements` returns exactly
`N` entries, the `n`-th being the kD-tree `findPoint` result for point `n` —
an element GlobalOrdinal of a containing element when one exists, the
reserved sentinel when none covers the point — returned in-band, never as an
exception (the embedding is a total function into the ordinal type). -/
theorem getElements_findPoint_inband (dim N : Nat)
    (elems : List (Int × (List Int → Bool))) (sentinel : Int)
    (coords : List Int) (hd : 0 < dim) (hlen : coords.length = dim * N) :
    ∃ ids, getElements dim (findPoint elems sentinel) coords = some ids ∧
      ids.length = N ∧
      (∀ n, n < N → ids.getD n 0
        = findPoint elems sentinel (queryPoint dim N coords n)) ∧
      (∀ p : List Int, (∀ e ∈ elems, e.2 p = false) →
        findPoint elems sentinel p = sentinel) ∧
      (∀ (p : List Int) (e : Int × (List Int → Bool)), e ∈ elems → e.2 p = true →
        ∃ eo ∈ elems, eo.2 p = true ∧ findPoint elems sentinel p = eo.1) := by
  have hq : coords.length / dim = N := by
    rw [hlen]; exact Nat.mul_div_cancel_left N (by omega)
  refine ⟨_, getElements_pos dim hd (findPoint elems sentinel) coords, ?_, ?_, ?_, ?_⟩
  · simp [hq]
  · intro n hn
    rw [hq, getD_map_range, if_pos hn]
  · intro p hnone
    unfold findPoint
    have hfil : elems.filter (fun e => e.2 p) = [] := by
      rw [List.filter_eq_nil_iff]
      intro e he
      simp [hnone e he]
    rw [hfil]
    rfl
  · intro p e he htrue
    have hmemf : e ∈ elems.filter (fun e => e.2 p) :=
      List.mem_filter.mpr ⟨he, htrue⟩
    unfold findPoint
    cases hmin : ((elems.filter (fun e => e.2 p)).map Prod.fst).min? with
    | none =>
      exfalso
      have hm : e.1 ∈ (elems.filter (fun e => e.2 p)).map Prod.fst :=
        List.mem_map.mpr ⟨e, hmemf, rfl⟩
      cases hl : (elems.filter (fun e => e.2 p)).map Prod.fst with
      | nil => rw [hl] at hm; simp at hm
      | cons y ys => rw [hl, List.min?_cons] at hmin; simp at hmin
    | some m =>
      have hm : m ∈ (elems.filter (fun e => e.2 p)).map Prod.fst :=
        List.min?_mem min_choice hmin
      obtain ⟨eo, heo, heq⟩ := List.mem_map.mp hm
      refine ⟨eo, (List.mem_filter.mp heo).1, (List.mem_filter.mp heo).2, ?_⟩
      rw [Option.getD_some]
      exact heq.symm

/-- Claim C7 witness: two 2-dimensional points against two candidate
elements — point 0 is covered, point 1 is not. -/
theorem getElements_findPoint_inband_witness :
    ∃ ids, getElements 2 (findPoint [((7 : Int), fun p => decide (p.getD 0 0 ≤ 1))] (-1))
        [1, 2, 3, 4] = some ids ∧
      ids.length = 2 ∧
      (∀ n, n < 2 → ids.getD n 0
        = findPoint [((7 : Int), fun p => decide (p.getD 0 0 ≤ 1))] (-1)
            (queryPoint 2 2 [1, 2, 3, 4] n)) ∧
      (∀ p : List Int,
        (∀ e ∈ [((7 : Int), fun p => decide (p.getD 0 0 ≤ 1))], e.2 p = false) →
        findPoint [((7 : Int), fun p => decide (p.getD 0 0 ≤ 1))] (-1) p = -1) ∧
      (∀ (p : List Int) (e : Int × (List Int → Bool)),
        e ∈ [((7 : Int), fun p => decide (p.getD 0 0 ≤ 1))] → e.2 p = true →
        ∃ eo ∈ [((7 : Int), fun p => decide (p.getD 0 0 ≤ 1))], eo.2 p = true ∧
          findPoint [((7 : Int), fun p => decide (p.getD 0 0 ≤ 1))] (-1) p = eo.1) :=
  getElements_findPoint_inband 2 2 [((7 : Int), fun p => decide (p.getD 0 0 ≤ 1))]
    (-1) [1, 2, 3, 4] (by decide) (by decide)

theorem getD_ordIndex_of_mem (l : List Int) (x : Int) (h : x ∈ l) :
    ordIndex l x < l.length ∧ l.getD (ordIndex l x) 0 = x := by
  obtain ⟨h1, h2⟩ := ordIndex_spec_of_mem l x h
  refine ⟨h1, ?_⟩
  rw [List.getD_eq_getElem?_getD, h2]
  rfl

theorem ordIndex_getD (l : List Int) (hnd : l.Nodup) (j : Nat)
    (hj : j < l.length) : ordIndex l (l.getD j 0) = j := by
  have hD : l.getD j 0 = l[j] := by
    rw [List.getD_eq_getElem?_getD, List.getElem?_eq_getElem hj]
    rfl
  rw [hD]
  exact ordIndex_of_nodup l l[j] j hnd (List.getElem?_eq_getElem hj)

theorem nodeIdx_spec_of_mem (mesh : Mesh) (x : Int) (h : x ∈ mesh.nodes) :
    nodeIdx mesh x < mesh.nodes.length ∧
    mesh.nodes.getD (nodeIdx mesh x) 0 = x :=
  getD_ordIndex_of_mem mesh.nodes x h

theorem elemIdx_spec_of_mem (mesh : Mesh) (x : Int) (h : x ∈ mesh.elements) :
    elemIdx mesh x < mesh.elements.length ∧
    mesh.elements.getD (elemIdx mesh x) 0 = x :=
  getD_ordIndex_of_mem mesh.elements x h

theorem connNode_mem_nodes (mesh : Mesh) (hwf : WFMesh mesh) (n i : Nat)
    (hn : n < mesh.elements.length) (hi : i < mesh.nodesPerElement) :
    mesh.connectivity.getD (i * mesh.elements.length + n) 0 ∈ mesh.nodes := by
  obtain ⟨hnnd, hend, hclen, hcmem⟩ := hwf
  have hidx : i * mesh.elements.length + n < mesh.connectivity.length := by
    rw [hclen]
    exact lt_mul_of_components i mesh.nodesPerElement mesh.elements.length n hi hn
  have hD : mesh.connectivity.getD (i * mesh.elements.length + n) 0
      = mesh.connectivity[i * mesh.elements.length + n] := by
    rw [List.getD_eq_getElem?_getD, List.getElem?_eq_getElem hidx]
    rfl
  rw [hD]
  exact hcmem _ (List.getElem_mem hidx)

theorem getMeshInBox_fst (mesh : Mesh) (inBox : Int × Int × Int → Bool) :
    (getMeshInBox mesh inBox).1 = setTrueAt (nodesInBoxGeom mesh inBox)
      (unionExpandTargets mesh (elementsInBox mesh inBox)) := rfl

theorem getMeshInBox_snd (mesh : Mesh) (inBox : Int × Int × Int → Bool) :
    (getMeshInBox mesh inBox).2 = elementsInBox mesh inBox := rfl

theorem getD_nodesInBoxGeom (mesh : Mesh) (inBox : Int × Int × Int → Bool)
    (j : Nat) (hj : j < mesh.nodes.length) :
    (nodesInBoxGeom mesh inBox).getD j false
      = inBox (rcbPointOfNode mesh j) := by
  unfold nodesInBoxGeom
  rw [getD_map_range, if_pos hj]
  rfl

theorem getD_elementsInBox (mesh : Mesh) (inBox : Int × Int × Int → Bool)
    (hwf : WFMesh mesh) (n : Nat) (hn : n < mesh.elements.length) :
    ((elementsInBox mesh inBox).getD n false = true ↔
      ∃ i < mesh.nodesPerElement,
        inBox (rcbPointOfNode mesh (nodeIdx mesh
          (mesh.connectivity.getD (i * mesh.elements.length + n) 0))) = true) := by
  unfold elementsInBox
  rw [getD_map_range, if_pos hn, List.any_eq_true]
  constructor
  · rintro ⟨i, hi, hflag⟩
    rw [List.mem_range] at hi
    have hmem := connNode_mem_nodes mesh hwf n i hn hi
    obtain ⟨hjlt, _⟩ := nodeIdx_spec_of_mem mesh _ hmem
    rw [getD_nodesInBoxGeom mesh inBox _ hjlt] at hflag
    exact ⟨i, hi, hflag⟩
  · rintro ⟨i, hi, hflag⟩
    refine ⟨i, List.mem_range.mpr hi, ?_⟩
    have hmem := connNode_mem_nodes mesh hwf n i hn hi
    obtain ⟨hjlt, _⟩ := nodeIdx_spec_of_mem mesh _ hmem
    rw [getD_nodesInBoxGeom mesh inBox _ hjlt]
    exact hflag

/-- Claim C4: in `getMeshInBox` an element is marked in-box iff at least one
of its connectivity nodes is geometrically inside the global bounding box,
and after element classification every node of every in-box element has its
flag set to 1, even when that node's own coordinates lie outside the box. -/
theorem getMeshInBox_spec (mesh : Mesh) (inBox : Int × Int × Int → Bool)
    (hwf : WFMesh mesh) :
    (∀ n, n < mesh.elements.length →
      ((getMeshInBox mesh inBox).2.getD n false = true ↔
        ∃ i < mesh.nodesPerElement,
          inBox (rcbPointOfNode mesh (nodeIdx mesh
            (mesh.connectivity.getD (i * mesh.elements.length + n) 0))) = true)) ∧
    (∀ n, n < mesh.elements.length →
      (getMeshInBox mesh inBox).2.getD n false = true →
      ∀ i, i < mesh.nodesPerElement →
        (getMeshInBox mesh inBox).1.getD (nodeIdx mesh
          (mesh.connectivity.getD (i * mesh.elements.length + n) 0)) false = true) := by
  constructor
  · intro n hn
    rw [getMeshInBox_snd]
    exact getD_elementsInBox mesh inBox hwf n hn
  · intro n hn heib i hi
    rw [getMeshInBox_snd] at heib
    rw [getMeshInBox_fst, getD_setTrueAt]
    left
    have hmem := connNode_mem_nodes mesh hwf n i hn hi
    obtain ⟨hjlt, _⟩ := nodeIdx_spec_of_mem mesh _ hmem
    constructor
    · unfold unionExpandTargets
      rw [List.mem_flatMap]
      refine ⟨n, List.mem_range.mpr hn, ?_⟩
      rw [if_pos heib]
      exact List.mem_map.mpr ⟨i, List.mem_range.mpr hi, rfl⟩
    · unfold nodesInBoxGeom
      rw [List.length_map, List.length_range]
      exact hjlt

/-- Claim C4 witness: in `wMesh` with box `x ≤ 1`, element 1 (= ordinal 101)
is in-box through node 11 although node 12 lies outside, and node 12's flag
is set by union expansion. -/
theorem getMeshInBox_spec_witness :
    ((getMeshInBox wMesh wInBox).2.getD 1 false = true ↔
      ∃ i < wMesh.nodesPerElement,
        wInBox (rcbPointOfNode wMesh (nodeIdx wMesh
          (wMesh.connectivity.getD (i * wMesh.elements.length + 1) 0))) = true) ∧
    ((getMeshInBox wMesh wInBox).2.getD 1 false = true →
      ∀ i, i < wMesh.nodesPerElement →
        (getMeshInBox wMesh wInBox).1.getD (nodeIdx wMesh
          (wMesh.connectivity.getD (i * wMesh.elements.length + 1) 0)) false = true) :=
  ⟨(getMeshInBox_spec wMesh wInBox wMesh_wf).1 1 (by decide),
   (getMeshInBox_spec wMesh wInBox wMesh_wf).2 1 (by decide)⟩

/-- Claim C2: for every in-box element (one with at least one in-box node),
the phase-2 destination list is exactly the set of RCB destinations of its
nodes' zero-padded coordinates — duplicate-free, hence at most
`nodes_per_element` distinct ranks, and non-empty — while an element with
all nodes outside the box gets an empty destination set and is never
exported. -/
theorem element_destinations_spec (mesh : Mesh) (inBox : Int × Int × Int → Bool)
    (rcb : Int × Int × Int → Int) (hwf : WFMesh mesh) (n : Nat)
    (hn : n < mesh.elements.length) :
    ((getMeshInBox mesh inBox).2.getD n false = true →
      (∀ p, p ∈ exportElementProcsAt mesh (getMeshInBox mesh inBox).2 rcb n ↔
        ∃ i < mesh.nodesPerElement, p = rcb (rcbPointOfNode mesh (nodeIdx mesh
          (mesh.connectivity.getD (i * mesh.elements.length + n) 0)))) ∧
      (exportElementProcsAt mesh (getMeshInBox mesh inBox).2 rcb n).Nodup ∧
      (exportElementProcsAt mesh (getMeshInBox mesh inBox).2 rcb n).length
        ≤ mesh.nodesPerElement ∧
      exportElementProcsAt mesh (getMeshInBox mesh inBox).2 rcb n ≠ []) ∧
    ((getMeshInBox mesh inBox).2.getD n false = false →
      exportElementProcsAt mesh (getMeshInBox mesh inBox).2 rcb n = [] ∧
      ∀ r, (mesh.elements.getD n 0, r)
        ∉ exportElementPairs mesh (getMeshInBox mesh inBox).2 rcb) := by
  constructor
  · intro heib
    have hiff : ∀ p, p ∈ exportElementProcsAt mesh (getMeshInBox mesh inBox).2 rcb n ↔
        ∃ i < mesh.nodesPerElement, p = rcb (rcbPointOfNode mesh (nodeIdx mesh
          (mesh.connectivity.getD (i * mesh.elements.length + n) 0))) := by
      intro p
      rw [mem_exportElementProcsAt]
      constructor
      · rintro ⟨_, i, hi, heq⟩
        exact ⟨i, hi, heq.symm⟩
      · rintro ⟨i, hi, heq⟩
        exact ⟨heib, i, hi, heq.symm⟩
    refine ⟨hiff, (sorted_exportElementProcsAt mesh _ rcb n).nodup, ?_, ?_⟩
    · refine length_le_of_nodup_subset _
        ((List.range mesh.nodesPerElement).map
          (fun i => rcb (rcbPointOfNode mesh (nodeIdx mesh
            (mesh.connectivity.getD (i * mesh.elements.length + n) 0)))))
        (sorted_exportElementProcsAt mesh _ rcb n).nodup ?_ |>.trans ?_
      · intro p hp
        obtain ⟨i, hi, heq⟩ := (hiff p).mp hp
        exact List.mem_map.mpr ⟨i, List.mem_range.mpr hi, heq.symm⟩
      · rw [List.length_map, List.length_range]
    · rw [getMeshInBox_snd] at heib
      obtain ⟨i, hi, _⟩ := (getD_elementsInBox mesh inBox hwf n hn).mp heib
      exact List.ne_nil_of_mem ((hiff _).mpr ⟨i, hi, rfl⟩)
  · intro heib
    have hempty : exportElementProcsAt mesh (getMeshInBox mesh inBox).2 rcb n = [] := by
      unfold exportElementProcsAt
      rw [if_neg (by simp only [heib]; exact Bool.false_ne_true)]
    refine ⟨hempty, ?_⟩
    intro r hmem
    obtain ⟨hnnd, hend, _, _⟩ := hwf
    obtain ⟨m', hm', hg, hr⟩ :=
      (mem_exportElementPairs mesh (getMeshInBox mesh inBox).2 rcb _ r).mp hmem
    have hgn : mesh.elements.getD n 0 = mesh.elements[n] := by
      rw [List.getD_eq_getElem?_getD, List.getElem?_eq_getElem hn]; rfl
    have hgm : mesh.elements.getD m' 0 = mesh.elements[m'] := by
      rw [List.getD_eq_getElem?_getD, List.getElem?_eq_getElem hm']; rfl
    have heqg : mesh.elements[n] = mesh.elements[m'] := by
      rw [← hgn, ← hgm, ← hg]
    have heqnm : n = m' := (List.Nodup.getElem_inj_iff hend).mp heqg
    rw [← heqnm, hempty] at hr
    simp at hr

/-- Claim C2 witness: element slot 1 of `wMesh` (ordinal 101, nodes 11 and
12) is in-box; its destination set is exactly the RCB ranks of its two
nodes. -/
theorem element_destinations_spec_witness :
    ((getMeshInBox wMesh wInBox).2.getD 1 false = true →
      (∀ p, p ∈ exportElementProcsAt wMesh (getMeshInBox wMesh wInBox).2 wRcb 1 ↔
        ∃ i < wMesh.nodesPerElement, p = wRcb (rcbPointOfNode wMesh (nodeIdx wMesh
          (wMesh.connectivity.getD (i * wMesh.elements.length + 1) 0)))) ∧
      (exportElementProcsAt wMesh (getMeshInBox wMesh wInBox).2 wRcb 1).Nodup ∧
      (exportElementProcsAt wMesh (getMeshInBox wMesh wInBox).2 wRcb 1).length
        ≤ wMesh.nodesPerElement ∧
      exportElementProcsAt wMesh (getMeshInBox wMesh wInBox).2 wRcb 1 ≠ []) ∧
    ((getMeshInBox wMesh wInBox).2.getD 1 false = false →
      exportElementProcsAt wMesh (getMeshInBox wMesh wInBox).2 wRcb 1 = [] ∧
      ∀ r, (wMesh.elements.getD 1 0, r)
        ∉ exportElementPairs wMesh (getMeshInBox wMesh wInBox).2 wRcb) :=
  element_destinations_spec wMesh wInBox wRcb wMesh_wf 1 (by decide)

theorem elemIdx_of_exportPair (mesh : Mesh) (hend : mesh.elements.Nodup)
    (eib : List Bool) (rcb : Int × Int × Int → Int) (g r : Int)
    (h : (g, r) ∈ exportElementPairs mesh eib rcb) :
    elemIdx mesh g < mesh.elements.length ∧
    mesh.elements.getD (elemIdx mesh g) 0 = g ∧
    r ∈ exportElementProcsAt mesh eib rcb (elemIdx mesh g) := by
  obtain ⟨n, hn, hg, hr⟩ := (mem_exportElementPairs mesh eib rcb g r).mp h
  have hidx : elemIdx mesh g = n := by
    rw [hg]; exact ordIndex_getD mesh.elements hend n hn
  rw [hidx]
  exact ⟨hn, hg.symm, hr⟩

/-- Claim C3: for every local node slot `j`, the phase-4 destination set is
exactly the union of the destination ranks of every exported (element, rank)
pair whose element's connectivity contains that node — derived from the
phase-2 element destination data, not from the node's own RCB routing. -/
theorem node_destinations_spec (mesh : Mesh) (inBox : Int × Int × Int → Bool)
    (rcb : Int × Int × Int → Int) (hwf : WFMesh mesh)
    (j : Nat) (hj : j < mesh.nodes.length) (p : Int) :
    p ∈ (exportNodeProcsSet mesh (getMeshInBox mesh inBox).2 rcb).getD j [] ↔
      ∃ g r, (g, r) ∈ exportElementPairs mesh (getMeshInBox mesh inBox).2 rcb ∧
        r = p ∧ ∃ i < mesh.nodesPerElement,
          mesh.connectivity.getD (i * mesh.elements.length + elemIdx mesh g) 0
            = mesh.nodes.getD j 0 := by
  rw [mem_exportNodeProcsSet mesh _ rcb j p hj, mem_nodeProcInserts]
  constructor
  · rintro ⟨gp, hgp, i, hi, hjeq, hpeq⟩
    obtain ⟨g, r⟩ := gp
    obtain ⟨hlt, hgD, hrp⟩ := elemIdx_of_exportPair mesh hwf.2.1 _ rcb g r hgp
    refine ⟨g, r, hgp, hpeq.symm, i, hi, ?_⟩
    have hmem := connNode_mem_nodes mesh hwf (elemIdx mesh g) i hlt hi
    obtain ⟨hjl, hND⟩ := nodeIdx_spec_of_mem mesh _ hmem
    rw [hjeq]
    exact hND.symm
  · rintro ⟨g, r, hgr, hrp, i, hi, hc⟩
    refine ⟨(g, r), hgr, i, hi, ?_, hrp.symm⟩
    rw [hc]
    exact (ordIndex_getD mesh.nodes hwf.1 j hj).symm

/-- Claim C3 witness: node slot 2 of `wMesh` (ordinal 12, outside the box)
receives rank 1 exactly because its parent element 101 is exported to
rank 1. -/
theorem node_destinations_spec_witness :
    (1 : Int) ∈ (exportNodeProcsSet wMesh (getMeshInBox wMesh wInBox).2 wRcb).getD 2 [] ↔
      ∃ g r, (g, r) ∈ exportElementPairs wMesh (getMeshInBox wMesh wInBox).2 wRcb ∧
        r = 1 ∧ ∃ i < wMesh.nodesPerElement,
          wMesh.connectivity.getD (i * wMesh.elements.length + elemIdx wMesh g) 0
            = wMesh.nodes.getD 2 0 :=
  node_destinations_spec wMesh wInBox wRcb wMesh_wf 2 (by decide) 1

/-- Claim C1: whenever `setupImportCommunication` exports an (element,
destination rank) pair, it also exports every node of that element to the
same destination rank; consequently, on every rendezvous rank the set of
received node GlobalOrdinals covers the connectivity of every element
received there. -/
theorem element_export_covers_nodes (mesh : Mesh) (inBox : Int × Int × Int → Bool)
    (rcb : Int × Int × Int → Int) (hwf : WFMesh mesh)
    (meshes : List Mesh) (hm : mesh ∈ meshes) (g r : Int)
    (hexp : (g, r) ∈ exportElementPairs mesh (getMeshInBox mesh inBox).2 rcb)
    (i : Nat) (hi : i < mesh.nodesPerElement) :
    (mesh.connectivity.getD (i * mesh.elements.length + elemIdx mesh g) 0, r)
      ∈ exportNodePairs mesh (getMeshInBox mesh inBox).2 rcb ∧
    g ∈ rendezvousElementsOn meshes inBox rcb r ∧
    mesh.connectivity.getD (i * mesh.elements.length + elemIdx mesh g) 0
      ∈ rendezvousNodesOn meshes inBox rcb r := by
  obtain ⟨hlt, hgD, hrp⟩ := elemIdx_of_exportPair mesh hwf.2.1 _ rcb g r hexp
  have hmem := connNode_mem_nodes mesh hwf (elemIdx mesh g) i hlt hi
  obtain ⟨hjl, hND⟩ := nodeIdx_spec_of_mem mesh _ hmem
  have hins : (nodeIdx mesh (mesh.connectivity.getD
      (i * mesh.elements.length + elemIdx mesh g) 0), r)
      ∈ nodeProcInserts mesh (getMeshInBox mesh inBox).2 rcb := by
    rw [mem_nodeProcInserts]
    exact ⟨(g, r), hexp, i, hi, rfl, rfl⟩
  have hset : r ∈ (exportNodeProcsSet mesh (getMeshInBox mesh inBox).2 rcb).getD
      (nodeIdx mesh (mesh.connectivity.getD
        (i * mesh.elements.length + elemIdx mesh g) 0)) [] :=
    (mem_exportNodeProcsSet mesh _ rcb _ r hjl).mpr hins
  have hpair : (mesh.connectivity.getD
      (i * mesh.elements.length + elemIdx mesh g) 0, r)
      ∈ exportNodePairs mesh (getMeshInBox mesh inBox).2 rcb := by
    rw [mem_exportNodePairs]
    exact ⟨nodeIdx mesh (mesh.connectivity.getD
      (i * mesh.elements.length + elemIdx mesh g) 0), hjl, hND.symm, hset⟩
  refine ⟨hpair, ?_, ?_⟩
  · unfold rendezvousElementsOn
    rw [mem_rendezvousListOfImports, mem_importsOn]
    exact ⟨mesh, hm, hexp⟩
  · unfold rendezvousNodesOn
    rw [mem_rendezvousListOfImports, mem_importsOn]
    exact ⟨mesh, hm, hpair⟩

/-- Claim C1 witness: element 100 of `wMesh` is exported to rank 0; its node
in slot 0 (ordinal 10) is exported to rank 0 as well, and both land in
rank 0's rendezvous arrays. -/
theorem element_export_covers_nodes_witness :
    (wMesh.connectivity.getD (0 * wMesh.elements.length + elemIdx wMesh 100) 0, (0 : Int))
      ∈ exportNodePairs wMesh (getMeshInBox wMesh wInBox).2 wRcb ∧
    (100 : Int) ∈ rendezvousElementsOn [wMesh] wInBox wRcb 0 ∧
    wMesh.connectivity.getD (0 * wMesh.elements.length + elemIdx wMesh 100) 0
      ∈ rendezvousNodesOn [wMesh] wInBox wRcb 0 :=
  element_export_covers_nodes wMesh wInBox wRcb wMesh_wf [wMesh]
    (List.mem_singleton.mpr rfl) 100 0 (by decide) 0 (by decide)

end DTKRendezvous
